import Mathlib

/-!
Verification of the Shim-Index repository.

The JavaScript sources are embedded shallowly:

* Integer-valued quantities (indices, seeds, LCG values, permutation-space
  sizes) are embedded as `Nat`; the JavaScript code only ever applies
  `%`, `Math.floor` division, multiplication and addition to them, which the
  `Nat` operations model exactly as long as the values stay inside the
  exactly-representable double range, a condition analysed separately.
* Strings (serial numbers) are embedded as `List Char`.
* The plane geometry (`computePiece` and its helpers) is embedded over `ℝ`,
  idealising IEEE-754 doubles; `Math.cos`/`Math.sin`/`Math.asin` become
  `Real.cos`/`Real.sin`/`Real.arcsin`, which forces the geometric
  definitions to be `noncomputable`.  The accumulator loops of the source
  that start from `±Infinity` are embedded as maxima/minima over the
  corresponding (nonempty) vertex lists.
* The main embedding follows `src/unnamed/part_001` (the most mature
  version of the program); the older `src/unnamed/part_000` variant of
  `computePiece` is embedded separately in the `Legacy` namespace.
-/

/-! ## Permutation Engine (src/unnamed/part_001 lines 7-122, src/shim.js) -/

/-- Maximum seed value (`MAX_SEED = 999999`). -/
def MAX_SEED : ℕ := 999999

/-- Ten primes used to seed the linear congruential generator
(`primes = [53, 59, 61, 67, 71, 73, 79, 83, 89, 97]`). -/
def primes : List ℕ := [53, 59, 61, 67, 71, 73, 79, 83, 89, 97]

/-- The `while (seed > 0)` loop of `lcg_increment`: multiplies together the
primes designated by the decimal digits of `seed`. -/
def lcgIncrementLoop (seed : ℕ) : ℕ :=
  if h : seed = 0 then 1
  else primes.getD (seed % 10) 0 * lcgIncrementLoop (seed / 10)
decreasing_by exact Nat.div_lt_self (Nat.pos_of_ne_zero h) (by norm_num)

/-- Embedding of `lcg_increment(seed)` (part_001 lines 43-53): the seed is
reduced mod `MAX_SEED+1`; seed 0 yields the first prime of the table,
otherwise the product of the primes designated by the decimal digits. -/
def lcg_increment (seed : ℕ) : ℕ :=
  let s := seed % (MAX_SEED + 1)
  if s = 0 then primes.getD 0 0 else lcgIncrementLoop s

/-- Embedding of `lcg(v, c, x, y)` (part_001 lines 67-84, shim.js lines
56-73): `m = 2*x^y`, `a = 2*x+1`, result `(a*v + c) % m`. -/
def lcg (v c x y : ℕ) : ℕ :=
  let m := 2 * x ^ y
  let a := 2 * x + 1
  (a * v + c) % m

/-- The digit loop of `generatePermutation` (part_001 lines 115-119): `y`
base-`x` digits of `r`, least significant first, each rendered as the
character `'A' + digit`. -/
def snDigits (r x : ℕ) : ℕ → List Char
  | 0 => []
  | y + 1 => Char.ofNat (65 + r % x) :: snDigits (r / x) x y

/-- The decoding step of `generatePermutation` (part_001 lines 96-122)
applied to an already-generated value `r ∈ [0, 2*x^y)`: sign `'-'` if
`r < x^y`, else `'+'` with `x^y` subtracted, followed by the `y` digits. -/
def decodeSerial (r x y : ℕ) : List Char :=
  let max := x ^ y
  if r < max then '-' :: snDigits r x y
  else '+' :: snDigits (r - max) x y

/-- Embedding of `generatePermutation(index, c, x, y)` (part_001 lines
96-122): decode the LCG value of `index`. -/
def generatePermutation (index c x y : ℕ) : List Char :=
  decodeSerial (lcg index c x y) x y

/-- Modelled from the spec: the serial-number text format must be
"parseable back to `(sign, per-slot counts)`".  `lettersVal` reads the
per-slot letter values back, least significant first. -/
def lettersVal (x : ℕ) : List Char → ℕ
  | [] => 0
  | ch :: rest => (ch.toNat - 65) + x * lettersVal x rest

/-- Modelled from the spec: parsing a serial-number string back to the
value `r ∈ [0, 2*x^y)` it decodes — sign plus per-slot letter values. -/
def parseSerial (x y : ℕ) : List Char → Option ℕ
  | [] => none
  | sign :: ds =>
      if sign = '-' then some (lettersVal x ds)
      else if sign = '+' then some (x ^ y + lettersVal x ds) else none

/-! ## Size validation and session setup (part_001 lines 757-859) -/

/-- `Number.MAX_SAFE_INTEGER`. -/
def MAX_SAFE_INTEGER : ℕ := 2 ^ 53 - 1

/-- Embedding of `validatePermutationSize` (part_001 lines 757-771):
the configuration is accepted (generation enabled) unless
`2*x^y > Number.MAX_SAFE_INTEGER`. -/
def validatePermutationSize (x y : ℕ) : Bool :=
  let nbPieces := 2 * x ^ y
  decide (¬ nbPieces > MAX_SAFE_INTEGER)

/-- The algorithmic session parameters installed by `generatePieces`
(part_001 lines 776-859).  The DOM/layout state it also sets (`colClass`,
paging, checkbox state) is projected away. -/
structure Session where
  x : ℕ
  y : ℕ
  nbPieces : ℕ
  seed : ℕ
  c : ℕ
deriving DecidableEq, Repr

/-- Embedding of the setup computation of `generatePieces` (part_001 lines
776-859): reads `x`, `y`, the requested piece count (`2*x^y` when the
"max" box is checked), reduces the seed mod `MAX_SEED+1` and installs
`c = lcg_increment(seed)`.  The source proceeds unconditionally: it has no
error path. -/
def generatePieces (x y seed nbPiecesInput : ℕ) (useMax : Bool) : Session :=
  let nbPieces := if useMax then 2 * x ^ y else nbPiecesInput
  let s := seed % (MAX_SEED + 1)
  { x := x, y := y, nbPieces := nbPieces, seed := s, c := lcg_increment s }

/-! ## Arithmetic lemmas for the Permutation Engine -/

/-- The LCG multiplier `a = 2*x+1` is coprime to the modulus `m = 2*x^y`
(comment of `lcg`: `a-1 = 2x` is divisible by 2 and by `x`). -/
theorem coprime_multiplier (x y : ℕ) : Nat.Coprime (2 * x + 1) (2 * x ^ y) := by
  have h2 : Nat.Coprime (2 * x + 1) 2 := Nat.coprime_two_right.mpr ⟨x, by ring⟩
  have hx : Nat.Coprime (2 * x + 1) x := by
    have h1 := (Nat.coprime_add_mul_right_left 1 x 2).mpr (Nat.coprime_one_left x)
    have he : 1 + 2 * x = 2 * x + 1 := by ring
    rwa [he] at h1
  exact h2.mul_right (hx.pow_right y)

theorem lcg_lt (v c x y : ℕ) (hx : 1 ≤ x) : lcg v c x y < 2 * x ^ y := by
  have hm : 0 < 2 * x ^ y := by positivity
  exact Nat.mod_lt _ hm

theorem lcg_inj (c x y : ℕ) {i j : ℕ} (hi : i < 2 * x ^ y) (hj : j < 2 * x ^ y)
    (h : lcg i c x y = lcg j c x y) : i = j := by
  have hmod : (2 * x + 1) * i + c ≡ (2 * x + 1) * j + c [MOD 2 * x ^ y] := h
  have h1 : (2 * x + 1) * i ≡ (2 * x + 1) * j [MOD 2 * x ^ y] :=
    hmod.add_right_cancel' c
  have h2 : i ≡ j [MOD 2 * x ^ y] :=
    h1.cancel_left_of_coprime (Nat.coprime_comm.mp (coprime_multiplier x y))
  calc i = i % (2 * x ^ y) := (Nat.mod_eq_of_lt hi).symm
    _ = j % (2 * x ^ y) := h2
    _ = j := Nat.mod_eq_of_lt hj

/-! ## Digit/character lemmas for the decoding step -/

theorem toNat_ofNat_of_lt {n : ℕ} (h : n < 55296) : (Char.ofNat n).toNat = n := by
  have hv : n.isValidChar := Or.inl h
  simp only [Char.ofNat, Char.ofNatAux, dif_pos hv]
  rfl

theorem snDigits_length (x : ℕ) : ∀ y r, (snDigits r x y).length = y
  | 0, _ => rfl
  | y + 1, r => by simp [snDigits, snDigits_length x y]

theorem char_le_iff_toNat (c d : Char) : c ≤ d ↔ c.toNat ≤ d.toNat :=
  Char.le_def

theorem snDigits_chars {x : ℕ} (hx1 : 1 ≤ x) (hx26 : x ≤ 26) :
    ∀ y r, ∀ ch ∈ snDigits r x y, 'A' ≤ ch ∧ ch ≤ 'Z' := by
  intro y
  induction y with
  | zero => intro r ch hch; simp [snDigits] at hch
  | succ y ih =>
    intro r ch hch
    simp only [snDigits, List.mem_cons] at hch
    rcases hch with h | h
    · subst h
      have hd : r % x < x := Nat.mod_lt _ (by omega)
      have hlt : 65 + r % x < 55296 := by omega
      constructor
      · rw [char_le_iff_toNat, toNat_ofNat_of_lt hlt]
        show 65 ≤ 65 + r % x
        omega
      · rw [char_le_iff_toNat, toNat_ofNat_of_lt hlt]
        show 65 + r % x ≤ 90
        omega
    · exact ih (r / x) ch h

theorem lettersVal_snDigits {x : ℕ} (hx1 : 1 ≤ x) (hx26 : x ≤ 26) :
    ∀ y r, r < x ^ y → lettersVal x (snDigits r x y) = r := by
  intro y
  induction y with
  | zero =>
    intro r hr
    rw [pow_zero] at hr
    obtain rfl : r = 0 := Nat.lt_one_iff.mp hr
    rfl
  | succ y ih =>
    intro r hr
    have hd : r % x < x := Nat.mod_lt _ (by omega)
    have hlt : 65 + r % x < 55296 := by omega
    have hdiv : r / x < x ^ y := by
      rw [Nat.div_lt_iff_lt_mul (by omega)]
      calc r < x ^ (y + 1) := hr
        _ = x ^ y * x := pow_succ x y
    simp only [snDigits, lettersVal, toNat_ofNat_of_lt hlt, ih (r / x) hdiv]
    rw [Nat.add_sub_cancel_left]
    rw [mul_comm]
    exact Nat.mod_add_div' r x

/-- Round-trip of the decoding step: parsing the generated string recovers
the pseudorandom value exactly. -/
theorem parseSerial_decodeSerial {x y r : ℕ} (hx1 : 1 ≤ x) (hx26 : x ≤ 26)
    (hr : r < 2 * x ^ y) : parseSerial x y (decodeSerial r x y) = some r := by
  unfold decodeSerial
  by_cases h : r < x ^ y
  · simp only [if_pos h, parseSerial, reduceCtorEq, reduceIte]
    rw [lettersVal_snDigits hx1 hx26 y r h]
  · have hge : x ^ y ≤ r := not_lt.mp h
    have hlt : r - x ^ y < x ^ y := by omega
    simp only [if_neg h, parseSerial, reduceCtorEq, reduceIte]
    rw [lettersVal_snDigits hx1 hx26 y _ hlt,
      if_neg (show ('+' : Char) = '-' → False by decide)]
    rw [Nat.add_sub_cancel' hge]

/-! ## Claims C1-C4 -/

/-- C1: for every `x`, `y` and every increment `c` produced by
`lcg_increment` (with `x` below the smallest table prime 53), the map
`index ↦ lcg(index, c, x, y) = ((2x+1)*index + c) mod 2x^y` is a bijection
on `[0, 2x^y)`: it maps the interval into itself and no two distinct
indices in the interval produce the same value. -/
theorem lcg_is_bijection (x y seed c : ℕ) (hc : c = lcg_increment seed)
    (hx1 : 1 ≤ x) (hx53 : x < 53) :
    (∀ v, v < 2 * x ^ y → lcg v c x y < 2 * x ^ y) ∧
    (∀ i j, i < 2 * x ^ y → j < 2 * x ^ y →
      lcg i c x y = lcg j c x y → i = j) :=
  ⟨fun v _ => lcg_lt v c x y hx1, fun _ _ hi hj h => lcg_inj c x y hi hj h⟩

/-- Witness for C1 at `x = 2`, `y = 1`, `seed = 0`. -/
theorem lcg_is_bijection_witness :
    (∀ v, v < 2 * 2 ^ 1 → lcg v (lcg_increment 0) 2 1 < 2 * 2 ^ 1) ∧
    (∀ i j, i < 2 * 2 ^ 1 → j < 2 * 2 ^ 1 →
      lcg i (lcg_increment 0) 2 1 = lcg j (lcg_increment 0) 2 1 → i = j) :=
  lcg_is_bijection 2 1 0 (lcg_increment 0) rfl (by decide) (by decide)

/-- C2: for every `x ∈ [1,26]`, `y ≥ 1` and `r ∈ [0, 2x^y)`, the decoding
step of `generatePermutation` yields the sign `'-'` if `r < x^y` and `'+'`
otherwise, followed by `y` letters in `A`–`Z` (total length `y+1`), and
parsing the string back (sign plus per-slot letter values) recovers `r`
exactly; consequently the decoding is injective on `[0, 2x^y)`, a
bijection onto the set of serial-number strings it produces. -/
theorem decodeSerial_bijection (x y r : ℕ) (hx1 : 1 ≤ x) (hx26 : x ≤ 26)
    (hy : 1 ≤ y) (hr : r < 2 * x ^ y) :
    (decodeSerial r x y).length = y + 1 ∧
    (decodeSerial r x y).headD ' ' = (if r < x ^ y then '-' else '+') ∧
    (∀ ch ∈ (decodeSerial r x y).tail, 'A' ≤ ch ∧ ch ≤ 'Z') ∧
    parseSerial x y (decodeSerial r x y) = some r ∧
    (∀ r', r' < 2 * x ^ y → decodeSerial r' x y = decodeSerial r x y →
      r' = r) := by
  refine ⟨?_, ?_, ?_, parseSerial_decodeSerial hx1 hx26 hr, ?_⟩
  · unfold decodeSerial
    by_cases h : r < x ^ y <;>
      simp [h, snDigits_length]
  · unfold decodeSerial
    by_cases h : r < x ^ y <;> simp [h]
  · unfold decodeSerial
    by_cases h : r < x ^ y <;> simp only [if_pos, if_neg, h, reduceIte,
      List.tail_cons] <;> exact fun ch hch => snDigits_chars hx1 hx26 y _ ch hch
  · intro r' hr' heq
    have h1 := parseSerial_decodeSerial hx1 hx26 hr'
    rw [heq, parseSerial_decodeSerial hx1 hx26 hr] at h1
    exact (Option.some_inj.mp h1).symm

/-- Witness for C2 at `x = 2`, `y = 1`, `r = 3`. -/
theorem decodeSerial_bijection_witness :
    (decodeSerial 3 2 1).length = 1 + 1 ∧
    (decodeSerial 3 2 1).headD ' ' = (if 3 < 2 ^ 1 then '-' else '+') ∧
    (∀ ch ∈ (decodeSerial 3 2 1).tail, 'A' ≤ ch ∧ ch ≤ 'Z') ∧
    parseSerial 2 1 (decodeSerial 3 2 1) = some 3 ∧
    (∀ r', r' < 2 * 2 ^ 1 → decodeSerial r' 2 1 = decodeSerial 3 2 1 →
      r' = 3) :=
  decodeSerial_bijection 2 1 3 (by decide) (by decide) (by decide) (by decide)

/-- C3 (code bug demonstration): `validatePermutationSize` accepts the
configuration `x = 2`, `y = 51` (its permutation space `2^52` is within
`Number.MAX_SAFE_INTEGER`), yet for the in-range index `2^52 - 2` the
intermediate value `(2x+1)*index + c` computed by `lcg` (with the seed-0
increment `c = 53`) exceeds `2^53`, the bound below which IEEE-754 double
arithmetic on integers is exact; in JavaScript the product `5*(2^52-2)`
rounds and `lcg` returns 44 instead of the exact value 43 proved here, so
an accepted configuration silently loses precision. -/
theorem validatePermutationSize_accepts_inexact_lcg :
    validatePermutationSize 2 51 = true ∧
    2 ^ 52 - 2 < 2 * 2 ^ 51 ∧
    2 ^ 53 < (2 * 2 + 1) * (2 ^ 52 - 2) + lcg_increment 0 ∧
    lcg (2 ^ 52 - 2) (lcg_increment 0) 2 51 = 43 := by decide

/-- C4 counterexample: with `seed = 0` and `x = 53` the increment
`c = lcg_increment(0) = 53` shares the factor 53 with the modulus
`2*53^1 = 106`, yet `generatePieces` does not report any configuration
error: it proceeds and installs exactly this non-coprime increment in the
session parameters. -/
theorem generatePieces_no_coprimality_check :
    Nat.gcd (lcg_increment 0) (2 * 53 ^ 1) = 53 ∧
    generatePieces 53 1 0 0 true =
      { x := 53, y := 1, nbPieces := 106, seed := 0, c := 53 } := by decide

/-- C4 amended: `generatePieces` performs no coprimality validation at all.
Even when the increment `lcg_increment(seed)` is not coprime with the
modulus `2x^y`, setting up a generation session proceeds unconditionally
and installs that increment (and the requested piece count); the
non-coprimality is left to surface as duplicate serial numbers at
runtime. -/
theorem generatePieces_proceeds_without_validation (x y seed n : ℕ) (b : Bool)
    (h : Nat.gcd (lcg_increment seed) (2 * x ^ y) ≠ 1) :
    (generatePieces x y seed n b).c = lcg_increment seed ∧
    (generatePieces x y seed n b).nbPieces = (if b then 2 * x ^ y else n) := by
  constructor
  · show lcg_increment (seed % (MAX_SEED + 1)) = lcg_increment seed
    unfold lcg_increment
    simp
  · rfl

/-- Witness for the amended C4 at `x = 53`, `y = 1`, `seed = 0`. -/
theorem generatePieces_proceeds_without_validation_witness :
    Nat.gcd (lcg_increment 0) (2 * 53 ^ 1) ≠ 1 ∧
    ((generatePieces 53 1 0 7 false).c = lcg_increment 0 ∧
     (generatePieces 53 1 0 7 false).nbPieces = (if false then 2 * 53 ^ 1 else 7)) :=
  ⟨by decide, generatePieces_proceeds_without_validation 53 1 0 7 false (by decide)⟩

/-! ## Geometry Builder: data model (part_001 lines 1-34, 150-190) -/

/-- A point of the plane (`{x, y}`). -/
structure Point where
  x : ℝ
  y : ℝ

/-- Default point handed to `List.getD` when reading vertices out of a shim
array; the embedding only reads indices that exist in the source. -/
def pO : Point := ⟨0, 0⟩

/-- A shim is the array of its polygon vertices (3 points triangular,
4 points trapezoidal). -/
abbrev Shim := List Point

/-- A slot (`{shims, angleStep, upward}`); `upward` is the `±1` marker the
source stores. -/
structure Slot where
  shims : List Shim
  angleStep : ℤ
  upward : ℤ

/-- Default slot for `List.getD`. -/
def dSlot : Slot := ⟨[], 0, 0⟩

/-- Bounding box (`{x, y, x2, y2}`). -/
structure BBox where
  x : ℝ
  y : ℝ
  x2 : ℝ
  y2 : ℝ

/-- Piece options (`{cropped, trapezoidal}`). -/
structure PieceOptions where
  cropped : Bool
  trapezoidal : Bool

/-- The piece object `{sn, slots, bbox}` returned by `computePiece`; the
local variable `height` of the source is additionally exposed as a field
for specification purposes. -/
structure Piece where
  sn : List Char
  slots : List Slot
  bbox : BBox
  height : ℝ

/-- Ratio between shim side and base (`side = 64`). -/
noncomputable def side : ℝ := 64

/-- Ratio between shim tip and base (`tip = 0.25`). -/
noncomputable def tip : ℝ := 0.25

/-- Distance between tip and vanishing point for trapezoidal shims
(`tipSide = (tip*side)/(1-tip)`). -/
noncomputable def tipSide : ℝ := (tip * side) / (1 - tip)

/-- Angle of triangular shim tips (`shimAngle3 = 2*asin(0.5/side)`). -/
noncomputable def shimAngle3 : ℝ := 2 * Real.arcsin (0.5 / side)

/-- Angle of trapezoidal shim tips
(`shimAngle4 = 2*asin(0.5/(side+tipSide))`). -/
noncomputable def shimAngle4 : ℝ := 2 * Real.arcsin (0.5 / (side + tipSide))

/-- Size of negative space in base units (`negativeSpace = 6`). -/
noncomputable def negativeSpace : ℝ := 6

/-- Embedding of `rotate(c, p, angle)` (part_001 lines 159-164). -/
noncomputable def rotate (c p : Point) (angle : ℝ) : Point :=
  ⟨Real.cos angle * (p.x - c.x) - Real.sin angle * (p.y - c.y) + c.x,
   Real.sin angle * (p.x - c.x) + Real.cos angle * (p.y - c.y) + c.y⟩

/-- Embedding of `project(c, p, y)` (part_001 lines 174-179); the division
is the total real division (the source never projects along a horizontal
line). -/
noncomputable def project (c p : Point) (y : ℝ) : Point :=
  ⟨c.x + (p.x - c.x) / (p.y - c.y) * (y - c.y), y⟩

/-! ## Geometry Builder: step 1, shim construction (part_001 lines 196-236) -/

/-- The inner loop over shims of one slot: shim `p0 p1 p2 (p3)` from
rotations of the tip/base outline, with `angleStep` decremented by
`upward` after `p1`. -/
noncomputable def mkShims (trap : Bool) (center p0tip p1base : Point)
    (angle : ℝ) : ℕ → ℤ → ℤ → List Shim
  | 0, _, _ => []
  | n + 1, step, u =>
      let p0 := rotate center p0tip ((step : ℝ) * angle)
      let p1 := rotate center p1base ((step : ℝ) * angle)
      let p2 := rotate center p1base (((step - u : ℤ) : ℝ) * angle)
      (if trap then
        [p0, p1, p2, rotate center p0tip (((step - u : ℤ) : ℝ) * angle)]
       else [p0, p1, p2])
        :: mkShims trap center p0tip p1base angle n (step - u) u

/-- The outer loop over slots: each slot fans `n` shims around its
rotation center (the tip for triangular shims, a virtual point beyond the
tip for trapezoidal ones), then flips orientation. -/
noncomputable def mkSlots (trap : Bool) (angle : ℝ) :
    List ℕ → ℤ → ℤ → List Slot
  | [], _, _ => []
  | n :: rest, step, u =>
      let center : Point := if trap then ⟨0, -(tipSide * (u : ℝ))⟩ else ⟨0, 0⟩
      let shims := mkShims trap center ⟨0, 0⟩ ⟨0, side * (u : ℝ)⟩ angle n step u
      ⟨shims, step, u⟩ :: mkSlots trap angle rest (step - u * (n : ℤ)) (-u)

/-- Step-1 slots of `computePiece`: one slot per letter of the serial
number (`nbShims = charCodeAt - 64`), first slot upward iff the sign is
`'+'`. -/
noncomputable def pieceSlots1 (sn : List Char) (trap : Bool) : List Slot :=
  mkSlots trap (if trap then shimAngle4 else shimAngle3)
    (sn.tail.map fun ch => ch.toNat - 64) 0
    (if sn.headD ' ' = '+' then 1 else -1)

/-! ## Geometry Builder: list extrema

The source accumulates minima/maxima starting from `±Infinity`; over `ℝ`
these folds are embedded as the extremum of the corresponding vertex list
(the lists are nonempty whenever the source runs the loops; the `[]` value
0 is never reached from a guarded serial number). -/

def listMax : List ℝ → ℝ
  | [] => 0
  | a :: l => l.foldl max a

def listMin : List ℝ → ℝ
  | [] => 0
  | a :: l => l.foldl min a

/-! ## Geometry Builder: step 2, height and vertical shift (part_001 lines 242-288) -/

/-- The tip-vertex values `shim[0].y * upward` (and `shim[3].y * upward`
when trapezoidal) of a slot, as scanned by the cropped-height loop. -/
noncomputable def tipYs (trap : Bool) (u : ℤ) (shims : List Shim) : List ℝ :=
  shims.flatMap fun sh =>
    ((sh.getD 0 pO).y * (u : ℝ)) ::
      (if trap then [(sh.getD 3 pO).y * (u : ℝ)] else [])

/-- The base-corner values `shim[1].y * upward`, `shim[2].y * upward` of a
slot. -/
noncomputable def baseYs (u : ℤ) (shims : List Shim) : List ℝ :=
  shims.flatMap fun sh =>
    [(sh.getD 1 pO).y * (u : ℝ), (sh.getD 2 pO).y * (u : ℝ)]

/-- All vertex ordinates of a slot. -/
def allYs (shims : List Shim) : List ℝ := shims.flatten.map Point.y

/-- `maxTip` of the cropped branch. -/
noncomputable def maxTip (trap : Bool) (s : Slot) : ℝ :=
  listMax (tipYs trap s.upward s.shims)

/-- `Math.abs(maxTip - minBase)`: the inner (tip-to-base) span of a slot
measured by the cropped branch. -/
noncomputable def innerSpan (trap : Bool) (s : Slot) : ℝ :=
  |maxTip trap s - listMin (baseYs s.upward s.shims)|

/-- `maxY - minY`: the outer span of a slot measured by the uncropped
branch. -/
noncomputable def outerSpan (s : Slot) : ℝ :=
  listMax (allYs s.shims) - listMin (allYs s.shims)

/-- Cropped piece height: minimum inner span over all slots (source
accumulator starts at `+Infinity`). -/
noncomputable def croppedHeight (trap : Bool) (slots : List Slot) : ℝ :=
  listMin (slots.map (innerSpan trap))

/-- Uncropped piece height: maximum outer span over all slots (source
accumulator starts at 0). -/
noncomputable def uncroppedHeight (slots : List Slot) : ℝ :=
  (slots.map outerSpan).foldl max 0

/-- Shift every vertex ordinate of a slot by `d`. -/
noncomputable def slotShiftY (d : ℝ) (s : Slot) : Slot :=
  { s with shims := s.shims.map fun sh => sh.map fun p => ⟨p.x, p.y + d⟩ }

/-- Cropped branch: `shim[i].y -= maxTip * slot.upward`. -/
noncomputable def cropAlign (trap : Bool) (s : Slot) : Slot :=
  slotShiftY (-(maxTip trap s * (s.upward : ℝ))) s

/-- Uncropped branch: `shim[i].y -= (upward > 0 ? minY : maxY)`. -/
noncomputable def uncropAlign (s : Slot) : Slot :=
  slotShiftY (-(if s.upward > 0 then listMin (allYs s.shims)
                else listMax (allYs s.shims))) s

/-! ## Geometry Builder: steps 3-5 (part_001 lines 294-357) -/

/-- Step 3: shims of downward slots translate by `+height` so tips touch
the bottom edge. -/
noncomputable def alignDownward (height : ℝ) (s : Slot) : Slot :=
  if s.upward > 0 then s else slotShiftY height s

/-- Step 4 inner loop: one shim is clipped to the band by projecting its
edges onto `y1` and `y2`. -/
noncomputable def cropShim (trap : Bool) (y1 y2 : ℝ) (sh : Shim) : Shim :=
  let p0 := project (sh.getD 0 pO) (sh.getD 1 pO) y1
  let p1 := project (sh.getD 0 pO) (sh.getD 1 pO) y2
  if trap then
    [p0, p1, project (sh.getD 3 pO) (sh.getD 2 pO) y2,
     project (sh.getD 3 pO) (sh.getD 2 pO) y1]
  else [p0, p1, project (sh.getD 0 pO) (sh.getD 2 pO) y2]

/-- Step 4: crop every shim of a slot by the piece height. -/
noncomputable def cropSlot (trap : Bool) (height : ℝ) (s : Slot) : Slot :=
  let y1 := if s.upward > 0 then (0 : ℝ) else height
  let y2 := if s.upward > 0 then height else (0 : ℝ)
  { s with shims := s.shims.map (cropShim trap y1 y2) }

/-- Shift every vertex abscissa of a slot by `d`. -/
noncomputable def slotShiftX (d : ℝ) (s : Slot) : Slot :=
  { s with shims := s.shims.map fun sh => sh.map fun p => ⟨p.x + d, p.y⟩ }

/-- Step 5: horizontal shift of slot `i` relative to the (already shifted)
slot `i-1`: previous slot's trailing edge and this slot's leading edge are
projected onto the orientation-relevant horizontal line and the delta plus
`negativeSpace` is applied. -/
noncomputable def spacingShift (trap : Bool) (height : ℝ) (prev s : Slot) : ℝ :=
  let y := if s.upward > 0 then (0 : ℝ) else height
  let prevShim := prev.shims.getD (prev.shims.length - 1) []
  let prevP := project
    (if trap then prevShim.getD 3 pO else prevShim.getD 0 pO)
    (prevShim.getD 2 pO) y
  let p := project ((s.shims.getD 0 []).getD 0 pO)
    ((s.shims.getD 0 []).getD 1 pO) y
  prevP.x - p.x + negativeSpace

/-- The spacing loop (`for iSlot = 1 ...`), carried left to right. -/
noncomputable def applySpacing (trap : Bool) (height : ℝ) :
    Slot → List Slot → List Slot
  | _, [] => []
  | prev, s :: rest =>
      let s' := slotShiftX (spacingShift trap height prev s) s
      s' :: applySpacing trap height s' rest

/-- Step 5 applied to the whole slot list (slot 0 is never shifted). -/
noncomputable def spaceSlots (trap : Bool) (height : ℝ) :
    List Slot → List Slot
  | [] => []
  | s :: rest => s :: applySpacing trap height s rest

/-! ## Geometry Builder: step 6 and assembly (part_001 lines 363-378) -/

/-- Step 6: min/max over every vertex of every shim, accumulated from 0. -/
noncomputable def computeBBox (slots : List Slot) : BBox :=
  let pts := slots.flatMap fun s => s.shims.flatten
  { x := (pts.map Point.x).foldl min 0,
    y := (pts.map Point.y).foldl min 0,
    x2 := (pts.map Point.x).foldl max 0,
    y2 := (pts.map Point.y).foldl max 0 }

/-- The `height` local of `computePiece` (part_001 lines 242-288). -/
noncomputable def pieceHeight (sn : List Char) (options : PieceOptions) : ℝ :=
  if options.cropped then
    croppedHeight options.trapezoidal (pieceSlots1 sn options.trapezoidal)
  else uncroppedHeight (pieceSlots1 sn options.trapezoidal)

/-- The slot list of `computePiece` after steps 2-5. -/
noncomputable def pieceSlotsFinal (sn : List Char) (options : PieceOptions) :
    List Slot :=
  let trap := options.trapezoidal
  let slots1 := pieceSlots1 sn trap
  let height := pieceHeight sn options
  let slots2 := if options.cropped then slots1.map (cropAlign trap)
                else slots1.map uncropAlign
  let slots3 := slots2.map (alignDownward height)
  let slots4 := if options.cropped then slots3.map (cropSlot trap height)
                else slots3
  spaceSlots trap height slots4

/-- The body of `computePiece` past the guard (part_001 lines 196-377). -/
noncomputable def buildPiece (sn : List Char) (options : PieceOptions) : Piece :=
  { sn := sn, slots := pieceSlotsFinal sn options,
    bbox := computeBBox (pieceSlotsFinal sn options),
    height := pieceHeight sn options }

/-- Embedding of `computePiece(sn, options)` (part_001 lines 189-378): the
guard `sn.length < 2 || (sn[0] != '+' && sn[0] != '-')` returns the
JavaScript `undefined`, embedded as `none`. -/
noncomputable def computePiece (sn : List Char) (options : PieceOptions) :
    Option Piece :=
  if sn.length < 2 ∨ (sn.headD ' ' ≠ '+' ∧ sn.headD ' ' ≠ '-') then none
  else some (buildPiece sn options)

/-! ## Fold lemmas for extrema -/

theorem foldl_max_init (l : List ℝ) (a : ℝ) : a ≤ l.foldl max a := by
  induction l generalizing a with
  | nil => exact le_refl a
  | cons b t ih => exact le_trans (le_max_left a b) (ih (max a b))

theorem foldl_max_mem (l : List ℝ) (a x : ℝ) (h : x ∈ l) : x ≤ l.foldl max a := by
  induction l generalizing a with
  | nil => cases h
  | cons b t ih =>
    rcases List.mem_cons.mp h with rfl | hx
    · exact le_trans (le_max_right a x) (foldl_max_init t (max a x))
    · exact ih (max a b) hx

theorem foldl_max_le (l : List ℝ) (a b : ℝ) (ha : a ≤ b)
    (h : ∀ x ∈ l, x ≤ b) : l.foldl max a ≤ b := by
  induction l generalizing a with
  | nil => exact ha
  | cons c t ih =>
    exact ih (max a c) (max_le ha (h c (List.mem_cons_self c t)))
      fun x hx => h x (List.mem_cons_of_mem c hx)

theorem foldl_min_init (l : List ℝ) (a : ℝ) : l.foldl min a ≤ a := by
  induction l generalizing a with
  | nil => exact le_refl a
  | cons b t ih => exact le_trans (ih (min a b)) (min_le_left a b)

theorem foldl_min_mem (l : List ℝ) (a x : ℝ) (h : x ∈ l) : l.foldl min a ≤ x := by
  induction l generalizing a with
  | nil => cases h
  | cons b t ih =>
    rcases List.mem_cons.mp h with rfl | hx
    · exact le_trans (foldl_min_init t (min a x)) (min_le_right a x)
    · exact ih (min a b) hx

theorem foldl_min_ge (l : List ℝ) (a b : ℝ) (ha : b ≤ a)
    (h : ∀ x ∈ l, b ≤ x) : b ≤ l.foldl min a := by
  induction l generalizing a with
  | nil => exact ha
  | cons c t ih =>
    exact ih (min a c) (le_min ha (h c (List.mem_cons_self c t)))
      fun x hx => h x (List.mem_cons_of_mem c hx)

theorem le_listMax {l : List ℝ} {x : ℝ} (h : x ∈ l) : x ≤ listMax l := by
  cases l with
  | nil => cases h
  | cons a t =>
    rcases List.mem_cons.mp h with rfl | hx
    · exact foldl_max_init t x
    · exact foldl_max_mem t a x hx

theorem listMax_le {l : List ℝ} {b : ℝ} (hne : l ≠ [])
    (h : ∀ x ∈ l, x ≤ b) : listMax l ≤ b := by
  cases l with
  | nil => exact absurd rfl hne
  | cons a t =>
    exact foldl_max_le t a b (h a (List.mem_cons_self a t))
      fun x hx => h x (List.mem_cons_of_mem a hx)

theorem listMin_le {l : List ℝ} {x : ℝ} (h : x ∈ l) : listMin l ≤ x := by
  cases l with
  | nil => cases h
  | cons a t =>
    rcases List.mem_cons.mp h with rfl | hx
    · exact foldl_min_init t x
    · exact foldl_min_mem t a x hx

theorem le_listMin {l : List ℝ} {b : ℝ} (hne : l ≠ [])
    (h : ∀ x ∈ l, b ≤ x) : b ≤ listMin l := by
  cases l with
  | nil => exact absurd rfl hne
  | cons a t =>
    exact foldl_min_ge t a b (h a (List.mem_cons_self a t))
      fun x hx => h x (List.mem_cons_of_mem a hx)

/-! ## Bounding-box containment -/

/-- A point lies inside a bounding box. -/
def inBBox (b : BBox) (p : Point) : Prop :=
  b.x ≤ p.x ∧ p.x ≤ b.x2 ∧ b.y ≤ p.y ∧ p.y ≤ b.y2

/-- All vertices of all shims of a piece, in scan order. -/
def pieceVertices (p : Piece) : List Point :=
  p.slots.flatMap fun s => s.shims.flatten

theorem computeBBox_contains (slots : List Slot) :
    ∀ v ∈ slots.flatMap fun s => s.shims.flatten,
      inBBox (computeBBox slots) v := by
  intro v hv
  refine ⟨?_, ?_, ?_, ?_⟩ <;>
    simp only [computeBBox]
  · exact foldl_min_mem _ 0 v.x (List.mem_map.mpr ⟨v, hv, rfl⟩)
  · exact foldl_max_mem _ 0 v.x (List.mem_map.mpr ⟨v, hv, rfl⟩)
  · exact foldl_min_mem _ 0 v.y (List.mem_map.mpr ⟨v, hv, rfl⟩)
  · exact foldl_max_mem _ 0 v.y (List.mem_map.mpr ⟨v, hv, rfl⟩)

theorem computeBBox_origin (slots : List Slot) :
    (computeBBox slots).x ≤ 0 ∧ 0 ≤ (computeBBox slots).x2 ∧
    (computeBBox slots).y ≤ 0 ∧ 0 ≤ (computeBBox slots).y2 := by
  refine ⟨?_, ?_, ?_, ?_⟩ <;> simp only [computeBBox]
  · exact foldl_min_init _ 0
  · exact foldl_max_init _ 0
  · exact foldl_min_init _ 0
  · exact foldl_max_init _ 0

theorem buildPiece_bbox (sn : List Char) (o : PieceOptions) :
    (buildPiece sn o).bbox = computeBBox (buildPiece sn o).slots := rfl

theorem computePiece_eq_some {sn : List Char} {o : PieceOptions} {p : Piece}
    (h : computePiece sn o = some p) : p = buildPiece sn o := by
  unfold computePiece at h
  by_cases hcond : sn.length < 2 ∨ (sn.headD ' ' ≠ '+' ∧ sn.headD ' ' ≠ '-')
  · rw [if_pos hcond] at h; cases h
  · rw [if_neg hcond] at h; exact (Option.some_inj.mp h).symm

/-! ## Claims C7, C10 and the part_001 half of C5 -/

/-- C7: for every malformed input string — shorter than 2 characters, or
whose first character is neither `'+'` nor `'-'` — and every option
combination, `computePiece` returns the defined empty value (`none`,
embedding the JavaScript `undefined`): it neither throws nor returns a
partially built piece. -/
theorem computePiece_malformed (sn : List Char) (options : PieceOptions)
    (h : sn.length < 2 ∨ (sn.headD ' ' ≠ '+' ∧ sn.headD ' ' ≠ '-')) :
    computePiece sn options = none := by
  unfold computePiece
  exact if_pos h

/-- Witness for C7 on the one-character input `"A"` (no sign, too short). -/
theorem computePiece_malformed_witness :
    computePiece ['A'] ⟨false, false⟩ = none :=
  computePiece_malformed ['A'] ⟨false, false⟩ (by decide)

/-- C10: for every serial number accepted by the guard and every options,
the bounding box returned by `computePiece` contains the origin — the
min/max accumulation of step 6 starts from 0 rather than from the first
vertex, so the box is anchored at the origin and not necessarily tight. -/
theorem computePiece_bbox_anchored (sn : List Char) (options : PieceOptions)
    (p : Piece) (h : computePiece sn options = some p) :
    p.bbox.x ≤ 0 ∧ 0 ≤ p.bbox.x2 ∧ p.bbox.y ≤ 0 ∧ 0 ≤ p.bbox.y2 := by
  obtain rfl := computePiece_eq_some h
  rw [buildPiece_bbox]
  exact computeBBox_origin _

/-- Witness for C10 on the serial number `"+A"`. -/
theorem computePiece_bbox_anchored_witness :
    computePiece ['+', 'A'] ⟨false, false⟩ =
      some (buildPiece ['+', 'A'] ⟨false, false⟩) ∧
    ((buildPiece ['+', 'A'] ⟨false, false⟩).bbox.x ≤ 0 ∧
     0 ≤ (buildPiece ['+', 'A'] ⟨false, false⟩).bbox.x2 ∧
     (buildPiece ['+', 'A'] ⟨false, false⟩).bbox.y ≤ 0 ∧
     0 ≤ (buildPiece ['+', 'A'] ⟨false, false⟩).bbox.y2) := by
  have h : computePiece ['+', 'A'] ⟨false, false⟩ =
      some (buildPiece ['+', 'A'] ⟨false, false⟩) := by
    unfold computePiece
    rw [if_neg (by decide)]
  exact ⟨h, computePiece_bbox_anchored ['+', 'A'] ⟨false, false⟩ _ h⟩

/-- C5 (amended, part_001): for every serial number accepted by the guard
and every option combination, the bounding box returned by the
`computePiece` of part_001 contains every vertex of every shim of the
returned piece. -/
theorem computePiece_bbox_contains_vertices (sn : List Char)
    (options : PieceOptions) (p : Piece) (h : computePiece sn options = some p) :
    ∀ v ∈ pieceVertices p, inBBox p.bbox v := by
  obtain rfl := computePiece_eq_some h
  rw [buildPiece_bbox]
  exact computeBBox_contains _

/-- Witness for the amended C5 on the serial number `"+B"` with the
trapezoidal cropped options. -/
theorem computePiece_bbox_contains_vertices_witness :
    computePiece ['+', 'B'] ⟨true, true⟩ =
      some (buildPiece ['+', 'B'] ⟨true, true⟩) ∧
    (∀ v ∈ pieceVertices (buildPiece ['+', 'B'] ⟨true, true⟩),
      inBBox (buildPiece ['+', 'B'] ⟨true, true⟩).bbox v) := by
  have h : computePiece ['+', 'B'] ⟨true, true⟩ =
      some (buildPiece ['+', 'B'] ⟨true, true⟩) := by
    unfold computePiece
    rw [if_neg (by decide)]
  exact ⟨h, computePiece_bbox_contains_vertices ['+', 'B'] ⟨true, true⟩ _ h⟩

/-! ## Height comparison lemmas (claim C6) -/

theorem foldl_max_neg (t : List ℝ) (a : ℝ) :
    (t.map fun x => -x).foldl max (-a) = -(t.foldl min a) := by
  induction t generalizing a with
  | nil => rfl
  | cons b t ih =>
    simp only [List.map_cons, List.foldl_cons, max_neg_neg]
    exact ih (min a b)

theorem foldl_min_neg (t : List ℝ) (a : ℝ) :
    (t.map fun x => -x).foldl min (-a) = -(t.foldl max a) := by
  induction t generalizing a with
  | nil => rfl
  | cons b t ih =>
    simp only [List.map_cons, List.foldl_cons, min_neg_neg]
    exact ih (max a b)

theorem listMax_map_neg (l : List ℝ) :
    listMax (l.map fun x => -x) = -(listMin l) := by
  cases l with
  | nil => simp [listMax, listMin]
  | cons a t => exact foldl_max_neg t a

theorem listMin_map_neg (l : List ℝ) :
    listMin (l.map fun x => -x) = -(listMax l) := by
  cases l with
  | nil => simp [listMax, listMin]
  | cons a t => exact foldl_min_neg t a

/-- Multiplying a list of ordinates by the `±1` orientation marker leaves
its spread (max minus min) unchanged. -/
theorem span_map_sign (l : List ℝ) (u : ℤ) (hu : u = 1 ∨ u = -1) :
    listMax (l.map fun t => t * (u : ℝ)) - listMin (l.map fun t => t * (u : ℝ)) =
      listMax l - listMin l := by
  rcases hu with rfl | rfl
  · have hf : (fun t : ℝ => t * ((1 : ℤ) : ℝ)) = id := by
      funext t; simp
    rw [hf, List.map_id]
  · have hf : (fun t : ℝ => t * ((-1 : ℤ) : ℝ)) = fun t : ℝ => -t := by
      funext t; push_cast; ring
    rw [hf, listMax_map_neg, listMin_map_neg]
    ring

/-- If `A` and `B` are nonempty sublists of values drawn from `S`, the
distance between the max of `A` and the min of `B` is at most the spread
of `S`. -/
theorem abs_max_sub_min_le {A B S : List ℝ} (hA : A ≠ []) (hB : B ≠ [])
    (hAS : ∀ a ∈ A, a ∈ S) (hBS : ∀ b ∈ B, b ∈ S) :
    |listMax A - listMin B| ≤ listMax S - listMin S := by
  obtain ⟨a0, ha0⟩ := List.exists_mem_of_ne_nil A hA
  obtain ⟨b0, hb0⟩ := List.exists_mem_of_ne_nil B hB
  have h1 : listMax A ≤ listMax S :=
    listMax_le hA fun a ha => le_listMax (hAS a ha)
  have h2 : listMin S ≤ listMax A :=
    le_trans (listMin_le (hAS a0 ha0)) (le_listMax ha0)
  have h3 : listMin S ≤ listMin B :=
    le_listMin hB fun b hb => listMin_le (hBS b hb)
  have h4 : listMin B ≤ listMax S :=
    le_trans (listMin_le hb0) (le_listMax (hBS b0 hb0))
  rw [abs_le]
  constructor <;> linarith

/-- Shape of a shim array as built by step 1: 4 vertices trapezoidal,
3 triangular. -/
def ShimShaped (trap : Bool) (sh : Shim) : Prop :=
  sh.length = if trap then 4 else 3

theorem mkShims_shaped (trap : Bool) (c p0 p1 : Point) (a : ℝ) :
    ∀ n step u, ∀ sh ∈ mkShims trap c p0 p1 a n step u, ShimShaped trap sh := by
  intro n
  induction n with
  | zero => intro step u sh hsh; cases hsh
  | succ n ih =>
    intro step u sh hsh
    rw [mkShims, List.mem_cons] at hsh
    rcases hsh with rfl | hsh
    · cases trap <;> simp [ShimShaped]
    · exact ih (step - u) u sh hsh

theorem mkSlots_props (trap : Bool) (a : ℝ) :
    ∀ counts step u, (u = 1 ∨ u = -1) →
      ∀ s ∈ mkSlots trap a counts step u,
        (s.upward = 1 ∨ s.upward = -1) ∧ ∀ sh ∈ s.shims, ShimShaped trap sh := by
  intro counts
  induction counts with
  | nil => intro step u _ s hs; cases hs
  | cons n rest ih =>
    intro step u hu s hs
    rw [mkSlots, List.mem_cons] at hs
    rcases hs with rfl | hs
    · exact ⟨hu, fun sh hsh => mkShims_shaped trap _ _ _ a n step u sh hsh⟩
    · have hu' : -u = 1 ∨ -u = -1 := by omega
      exact ih (step - u * (n : ℤ)) (-u) hu' s hs

/-- The value of a vertex read by the height loops belongs to the scaled
ordinate list of the slot. -/
theorem getD_y_mem_scaled {shims : List Shim} {sh : Shim} (hsh : sh ∈ shims)
    {k : ℕ} (hk : k < sh.length) (u : ℤ) :
    (sh.getD k pO).y * (u : ℝ) ∈ (allYs shims).map fun t => t * (u : ℝ) := by
  apply List.mem_map.mpr
  refine ⟨(sh.getD k pO).y, ?_, rfl⟩
  apply List.mem_map.mpr
  refine ⟨sh.getD k pO, ?_, rfl⟩
  rw [List.getD_eq_getElem sh pO hk]
  exact List.mem_flatten.mpr ⟨sh, hsh, List.getElem_mem hk⟩

/-- Per slot, the inner (tip-to-base) span measured by the cropped branch
is at most the outer span measured by the uncropped branch. -/
theorem innerSpan_le_outerSpan (trap : Bool) (s : Slot)
    (hu : s.upward = 1 ∨ s.upward = -1)
    (hsh : ∀ sh ∈ s.shims, ShimShaped trap sh) :
    innerSpan trap s ≤ outerSpan s := by
  rcases hne : s.shims with _ | ⟨sh0, rest⟩
  · simp [innerSpan, outerSpan, maxTip, tipYs, baseYs, allYs, hne,
      listMax, listMin]
  · have hlen : ∀ sh ∈ s.shims, sh.length = if trap then 4 else 3 := hsh
    have hAne : tipYs trap s.upward s.shims ≠ [] := by
      rw [hne, tipYs, List.flatMap_cons]
      cases trap <;> simp
    have hBne : baseYs s.upward s.shims ≠ [] := by
      rw [hne, baseYs, List.flatMap_cons]
      simp
    have hAS : ∀ v ∈ tipYs trap s.upward s.shims,
        v ∈ (allYs s.shims).map fun t => t * ((s.upward : ℤ) : ℝ) := by
      intro v hv
      rw [tipYs, List.mem_flatMap] at hv
      obtain ⟨sh, hshm, hvm⟩ := hv
      have hl := hlen sh hshm
      cases trap with
      | false =>
        simp only [Bool.false_eq_true, if_false, List.mem_cons,
          List.not_mem_nil, or_false] at hvm hl
        obtain rfl := hvm
        exact getD_y_mem_scaled hshm (by omega) s.upward
      | true =>
        simp only [if_true, List.mem_cons, List.mem_singleton,
          List.not_mem_nil, or_false] at hvm hl
        rcases hvm with rfl | rfl
        · exact getD_y_mem_scaled hshm (by omega) s.upward
        · exact getD_y_mem_scaled hshm (by omega) s.upward
    have hBS : ∀ v ∈ baseYs s.upward s.shims,
        v ∈ (allYs s.shims).map fun t => t * ((s.upward : ℤ) : ℝ) := by
      intro v hv
      rw [baseYs, List.mem_flatMap] at hv
      obtain ⟨sh, hshm, hvm⟩ := hv
      have hl := hlen sh hshm
      have h3 : 3 ≤ sh.length := by
        rw [hl]; cases trap <;> norm_num
      simp only [List.mem_cons, List.mem_singleton, List.not_mem_nil,
        or_false] at hvm
      rcases hvm with rfl | rfl
      · exact getD_y_mem_scaled hshm (by omega) s.upward
      · exact getD_y_mem_scaled hshm (by omega) s.upward
    calc innerSpan trap s
        ≤ listMax ((allYs s.shims).map fun t => t * ((s.upward : ℤ) : ℝ)) -
            listMin ((allYs s.shims).map fun t => t * ((s.upward : ℤ) : ℝ)) :=
          abs_max_sub_min_le hAne hBne hAS hBS
      _ = listMax (allYs s.shims) - listMin (allYs s.shims) :=
          span_map_sign _ s.upward hu
      _ = outerSpan s := rfl

/-- The cropped height (min inner span) never exceeds the uncropped height
(max outer span), for the step-1 slots of any serial number. -/
theorem croppedHeight_le_uncroppedHeight (trap : Bool) (slots : List Slot)
    (h : ∀ s ∈ slots,
      (s.upward = 1 ∨ s.upward = -1) ∧ ∀ sh ∈ s.shims, ShimShaped trap sh) :
    croppedHeight trap slots ≤ uncroppedHeight slots := by
  cases slots with
  | nil => simp [croppedHeight, uncroppedHeight, listMin]
  | cons s0 rest =>
    have hs0 := h s0 (List.mem_cons_self s0 rest)
    have h1 : croppedHeight trap (s0 :: rest) ≤ innerSpan trap s0 :=
      listMin_le (by simp)
    have h2 : innerSpan trap s0 ≤ outerSpan s0 :=
      innerSpan_le_outerSpan trap s0 hs0.1 hs0.2
    have h3 : outerSpan s0 ≤ uncroppedHeight (s0 :: rest) :=
      foldl_max_mem _ 0 _ (by simp)
    linarith

theorem buildPiece_height_cropped (sn : List Char) (trap : Bool) :
    (buildPiece sn ⟨true, trap⟩).height =
      croppedHeight trap (pieceSlots1 sn trap) := rfl

theorem buildPiece_height_uncropped (sn : List Char) (trap : Bool) :
    (buildPiece sn ⟨false, trap⟩).height =
      uncroppedHeight (pieceSlots1 sn trap) := rfl

/-- C6: for every serial number accepted by the guard and a fixed
trapezoidal option, the height of the piece computed by `computePiece`
with `cropped = true` is at most the height of the piece computed from the
same serial number with `cropped = false`. -/
theorem computePiece_cropped_height_le (sn : List Char) (trap : Bool)
    (p q : Piece) (hp : computePiece sn ⟨true, trap⟩ = some p)
    (hq : computePiece sn ⟨false, trap⟩ = some q) :
    p.height ≤ q.height := by
  obtain rfl := computePiece_eq_some hp
  obtain rfl := computePiece_eq_some hq
  rw [buildPiece_height_cropped, buildPiece_height_uncropped]
  apply croppedHeight_le_uncroppedHeight
  intro s hs
  refine mkSlots_props trap _ _ 0 _ ?_ s hs
  by_cases hsign : sn.headD ' ' = '+'
  · rw [if_pos hsign]; exact Or.inl rfl
  · rw [if_neg hsign]; exact Or.inr rfl

/-- Witness for C6 on the serial number `"+AB"`, triangular shims. -/
theorem computePiece_cropped_height_le_witness :
    computePiece ['+', 'A', 'B'] ⟨true, false⟩ =
      some (buildPiece ['+', 'A', 'B'] ⟨true, false⟩) ∧
    computePiece ['+', 'A', 'B'] ⟨false, false⟩ =
      some (buildPiece ['+', 'A', 'B'] ⟨false, false⟩) ∧
    (buildPiece ['+', 'A', 'B'] ⟨true, false⟩).height ≤
      (buildPiece ['+', 'A', 'B'] ⟨false, false⟩).height := by
  have h1 : computePiece ['+', 'A', 'B'] ⟨true, false⟩ =
      some (buildPiece ['+', 'A', 'B'] ⟨true, false⟩) := by
    unfold computePiece
    rw [if_neg (by decide)]
  have h2 : computePiece ['+', 'A', 'B'] ⟨false, false⟩ =
      some (buildPiece ['+', 'A', 'B'] ⟨false, false⟩) := by
    unfold computePiece
    rw [if_neg (by decide)]
  exact ⟨h1, h2, computePiece_cropped_height_le ['+', 'A', 'B'] false _ _ h1 h2⟩

/-! ## Slot-structure preservation (claim C8)

Steps 2-5 of `computePiece` only move vertices: they never change the
number of slots, the number of shims of a slot, or its `upward` marker. -/

/-- A per-slot transformation that keeps the shim count and the
orientation marker. -/
def ProfilePreserving (f : Slot → Slot) : Prop :=
  ∀ s, (f s).shims.length = s.shims.length ∧ (f s).upward = s.upward

theorem slotShiftY_profile (d : ℝ) : ProfilePreserving (slotShiftY d) :=
  fun s => ⟨by simp [slotShiftY], rfl⟩

theorem slotShiftX_profile (d : ℝ) : ProfilePreserving (slotShiftX d) :=
  fun s => ⟨by simp [slotShiftX], rfl⟩

theorem cropAlign_profile (trap : Bool) : ProfilePreserving (cropAlign trap) :=
  fun s => slotShiftY_profile _ s

theorem uncropAlign_profile : ProfilePreserving uncropAlign :=
  fun s => slotShiftY_profile _ s

theorem alignDownward_profile (height : ℝ) :
    ProfilePreserving (alignDownward height) := by
  intro s
  unfold alignDownward
  by_cases h : s.upward > 0
  · rw [if_pos h]; exact ⟨rfl, rfl⟩
  · rw [if_neg h]; exact slotShiftY_profile _ s

theorem cropSlot_profile (trap : Bool) (height : ℝ) :
    ProfilePreserving (cropSlot trap height) :=
  fun s => ⟨by simp [cropSlot], rfl⟩

theorem getD_map_profile {f : Slot → Slot} (hf : ProfilePreserving f)
    (l : List Slot) (i : ℕ) :
    ((l.map f).getD i dSlot).shims.length = (l.getD i dSlot).shims.length ∧
    ((l.map f).getD i dSlot).upward = (l.getD i dSlot).upward := by
  by_cases hi : i < l.length
  · rw [List.getD_eq_getElem _ _ (by simpa using hi), List.getElem_map,
      List.getD_eq_getElem _ _ hi]
    exact hf _
  · rw [List.getD_eq_default _ _ (by simpa using not_lt.mp hi),
      List.getD_eq_default _ _ (not_lt.mp hi)]
    exact ⟨rfl, rfl⟩

theorem applySpacing_length (trap : Bool) (height : ℝ) :
    ∀ (l : List Slot) (prev : Slot),
      (applySpacing trap height prev l).length = l.length := by
  intro l
  induction l with
  | nil => intro prev; rfl
  | cons s rest ih =>
    intro prev
    rw [applySpacing]
    simp only [List.length_cons, ih]

theorem applySpacing_getD (trap : Bool) (height : ℝ) :
    ∀ (l : List Slot) (prev : Slot) (i : ℕ),
      ((applySpacing trap height prev l).getD i dSlot).shims.length =
        (l.getD i dSlot).shims.length ∧
      ((applySpacing trap height prev l).getD i dSlot).upward =
        (l.getD i dSlot).upward := by
  intro l
  induction l with
  | nil => intro prev i; exact ⟨rfl, rfl⟩
  | cons s rest ih =>
    intro prev i
    rw [applySpacing]
    cases i with
    | zero =>
      rw [List.getD_cons_zero, List.getD_cons_zero]
      exact slotShiftX_profile _ s
    | succ i =>
      rw [List.getD_cons_succ, List.getD_cons_succ]
      exact ih _ i

theorem spaceSlots_length (trap : Bool) (height : ℝ) (l : List Slot) :
    (spaceSlots trap height l).length = l.length := by
  cases l with
  | nil => rfl
  | cons s rest =>
    rw [spaceSlots]
    simp only [List.length_cons, applySpacing_length]

theorem spaceSlots_getD (trap : Bool) (height : ℝ) (l : List Slot) (i : ℕ) :
    ((spaceSlots trap height l).getD i dSlot).shims.length =
      (l.getD i dSlot).shims.length ∧
    ((spaceSlots trap height l).getD i dSlot).upward =
      (l.getD i dSlot).upward := by
  cases l with
  | nil => exact ⟨rfl, rfl⟩
  | cons s rest =>
    rw [spaceSlots]
    cases i with
    | zero => exact ⟨rfl, rfl⟩
    | succ i =>
      rw [List.getD_cons_succ, List.getD_cons_succ]
      exact applySpacing_getD trap height rest s i

theorem mkShims_length (trap : Bool) (c p0 p1 : Point) (a : ℝ) :
    ∀ n step u, (mkShims trap c p0 p1 a n step u).length = n := by
  intro n
  induction n with
  | zero => intro step u; rfl
  | succ n ih =>
    intro step u
    rw [mkShims]
    simp only [List.length_cons, ih]

theorem mkSlots_length (trap : Bool) (a : ℝ) :
    ∀ counts step u, (mkSlots trap a counts step u).length = counts.length := by
  intro counts
  induction counts with
  | nil => intro step u; rfl
  | cons n rest ih =>
    intro step u
    rw [mkSlots]
    simp only [List.length_cons, ih]

theorem mkSlots_getD (trap : Bool) (a : ℝ) :
    ∀ counts step (u : ℤ) i, i < counts.length →
      ((mkSlots trap a counts step u).getD i dSlot).shims.length =
        counts.getD i 0 ∧
      ((mkSlots trap a counts step u).getD i dSlot).upward = u * (-1) ^ i := by
  intro counts
  induction counts with
  | nil => intro step u i hi; cases hi
  | cons n rest ih =>
    intro step u i hi
    rw [mkSlots]
    cases i with
    | zero =>
      rw [List.getD_cons_zero, List.getD_cons_zero]
      exact ⟨mkShims_length trap _ _ _ a n step u, by ring⟩
    | succ i =>
      rw [List.getD_cons_succ, List.getD_cons_succ]
      have hi' : i < rest.length := by simpa using hi
      obtain ⟨h1, h2⟩ := ih (step - u * (n : ℤ)) (-u) i hi'
      refine ⟨h1, ?_⟩
      rw [h2]
      ring

theorem pieceSlotsFinal_length (sn : List Char) (o : PieceOptions) :
    (pieceSlotsFinal sn o).length = (pieceSlots1 sn o.trapezoidal).length := by
  unfold pieceSlotsFinal
  by_cases hc : o.cropped = true <;>
    simp [hc, spaceSlots_length, List.length_map]

theorem pieceSlotsFinal_getD (sn : List Char) (o : PieceOptions) (i : ℕ) :
    ((pieceSlotsFinal sn o).getD i dSlot).shims.length =
      ((pieceSlots1 sn o.trapezoidal).getD i dSlot).shims.length ∧
    ((pieceSlotsFinal sn o).getD i dSlot).upward =
      ((pieceSlots1 sn o.trapezoidal).getD i dSlot).upward := by
  unfold pieceSlotsFinal
  by_cases hc : o.cropped = true
  · simp only [hc, if_true]
    obtain ⟨a1, a2⟩ := spaceSlots_getD o.trapezoidal (pieceHeight sn o)
      ((((pieceSlots1 sn o.trapezoidal).map (cropAlign o.trapezoidal)).map
        (alignDownward (pieceHeight sn o))).map
          (cropSlot o.trapezoidal (pieceHeight sn o))) i
    obtain ⟨b1, b2⟩ := getD_map_profile
      (cropSlot_profile o.trapezoidal (pieceHeight sn o)) _ i
    obtain ⟨c1, c2⟩ := getD_map_profile
      (alignDownward_profile (pieceHeight sn o)) _ i
    obtain ⟨d1, d2⟩ := getD_map_profile (cropAlign_profile o.trapezoidal) _ i
    exact ⟨by rw [a1, b1, c1, d1], by rw [a2, b2, c2, d2]⟩
  · simp only [hc, if_false, Bool.false_eq_true]
    obtain ⟨a1, a2⟩ := spaceSlots_getD o.trapezoidal (pieceHeight sn o)
      (((pieceSlots1 sn o.trapezoidal).map uncropAlign).map
        (alignDownward (pieceHeight sn o))) i
    obtain ⟨c1, c2⟩ := getD_map_profile
      (alignDownward_profile (pieceHeight sn o)) _ i
    obtain ⟨d1, d2⟩ := getD_map_profile uncropAlign_profile _ i
    exact ⟨by rw [a1, c1, d1], by rw [a2, c2, d2]⟩

/-- A well-formed serial number: a `'+'` or `'-'` sign followed by at
least one uppercase letter `A`-`Z`. -/
def WellFormedSN (sn : List Char) : Prop :=
  2 ≤ sn.length ∧ (sn.headD ' ' = '+' ∨ sn.headD ' ' = '-') ∧
  ∀ ch ∈ sn.tail, 'A' ≤ ch ∧ ch ≤ 'Z'

instance (sn : List Char) : Decidable (WellFormedSN sn) := by
  unfold WellFormedSN
  infer_instance

/-- C8: for every well-formed serial number (sign followed by uppercase
letters `A`-`Z`) and every options, the piece returned by `computePiece`
has exactly `length - 1` slots; slot `i` contains exactly
`charCode(letter i) - 64` shims, a count in `[1, 26]`; and the slot
orientation strictly alternates starting from the sign: slot `i` carries
the marker `(±1)·(-1)^i`, positive for slot 0 iff the sign is `'+'`. -/
theorem computePiece_slot_structure (sn : List Char) (options : PieceOptions)
    (p : Piece) (hwf : WellFormedSN sn)
    (h : computePiece sn options = some p) :
    p.slots.length = sn.length - 1 ∧
    ∀ i, i < sn.length - 1 →
      (p.slots.getD i dSlot).shims.length = (sn.getD (i + 1) ' ').toNat - 64 ∧
      1 ≤ (p.slots.getD i dSlot).shims.length ∧
      (p.slots.getD i dSlot).shims.length ≤ 26 ∧
      (p.slots.getD i dSlot).upward =
        (if sn.headD ' ' = '+' then 1 else -1) * (-1) ^ i := by
  obtain rfl := computePiece_eq_some h
  have hslots : (buildPiece sn options).slots = pieceSlotsFinal sn options := rfl
  have hlen1 : (pieceSlots1 sn options.trapezoidal).length = sn.length - 1 := by
    unfold pieceSlots1
    rw [mkSlots_length]
    simp [List.length_tail]
  constructor
  · rw [hslots, pieceSlotsFinal_length, hlen1]
  · intro i hi
    have hitail : i < sn.tail.length := by rw [List.length_tail]; omega
    have hcounts : i < (sn.tail.map fun ch => ch.toNat - 64).length := by
      simpa using hitail
    have hi1 : i + 1 < sn.length := by
      rcases sn with _ | ⟨c, rest⟩
      · exact absurd hwf.1 (by simp)
      · simp only [List.tail_cons] at hitail
        simp only [List.length_cons]
        omega
    obtain ⟨hlen, hup⟩ := mkSlots_getD options.trapezoidal
      (if options.trapezoidal then shimAngle4 else shimAngle3)
      (sn.tail.map fun ch => ch.toNat - 64) 0
      (if sn.headD ' ' = '+' then 1 else -1) i hcounts
    obtain ⟨hfin1, hfin2⟩ := pieceSlotsFinal_getD sn options i
    have hch : sn.tail.getD i ' ' = sn.getD (i + 1) ' ' := by
      rw [List.getD_eq_getElem _ _ hitail, List.getD_eq_getElem _ _ hi1]
      exact List.getElem_tail ..
    have hcount_val : (sn.tail.map fun ch => ch.toNat - 64).getD i 0 =
        (sn.getD (i + 1) ' ').toNat - 64 := by
      rw [List.getD_eq_getElem _ _ hcounts, List.getElem_map, ← hch,
        List.getD_eq_getElem _ _ hitail]
    have hmem : sn.getD (i + 1) ' ' ∈ sn.tail := by
      rw [← hch, List.getD_eq_getElem _ _ hitail]
      exact List.getElem_mem hitail
    obtain ⟨hA, hZ⟩ := hwf.2.2 _ hmem
    rw [char_le_iff_toNat] at hA hZ
    have hA' : 65 ≤ (sn.getD (i + 1) ' ').toNat := hA
    have hZ' : (sn.getD (i + 1) ' ').toNat ≤ 90 := hZ
    refine ⟨?_, ?_, ?_, ?_⟩
    · rw [hslots, hfin1, show pieceSlots1 sn options.trapezoidal =
        mkSlots options.trapezoidal
          (if options.trapezoidal then shimAngle4 else shimAngle3)
          (sn.tail.map fun ch => ch.toNat - 64) 0
          (if sn.headD ' ' = '+' then 1 else -1) from rfl, hlen, hcount_val]
    · rw [hslots, hfin1, show pieceSlots1 sn options.trapezoidal =
        mkSlots options.trapezoidal
          (if options.trapezoidal then shimAngle4 else shimAngle3)
          (sn.tail.map fun ch => ch.toNat - 64) 0
          (if sn.headD ' ' = '+' then 1 else -1) from rfl, hlen, hcount_val]
      omega
    · rw [hslots, hfin1, show pieceSlots1 sn options.trapezoidal =
        mkSlots options.trapezoidal
          (if options.trapezoidal then shimAngle4 else shimAngle3)
          (sn.tail.map fun ch => ch.toNat - 64) 0
          (if sn.headD ' ' = '+' then 1 else -1) from rfl, hlen, hcount_val]
      omega
    · rw [hslots, hfin2, show pieceSlots1 sn options.trapezoidal =
        mkSlots options.trapezoidal
          (if options.trapezoidal then shimAngle4 else shimAngle3)
          (sn.tail.map fun ch => ch.toNat - 64) 0
          (if sn.headD ' ' = '+' then 1 else -1) from rfl, hup]

/-- Witness for C8 on the serial number `"+AB"` with default options. -/
theorem computePiece_slot_structure_witness :
    WellFormedSN ['+', 'A', 'B'] ∧
    computePiece ['+', 'A', 'B'] ⟨false, false⟩ =
      some (buildPiece ['+', 'A', 'B'] ⟨false, false⟩) ∧
    ((buildPiece ['+', 'A', 'B'] ⟨false, false⟩).slots.length =
      ['+', 'A', 'B'].length - 1 ∧
     ∀ i, i < ['+', 'A', 'B'].length - 1 →
      ((buildPiece ['+', 'A', 'B'] ⟨false, false⟩).slots.getD i
          dSlot).shims.length =
        (['+', 'A', 'B'].getD (i + 1) ' ').toNat - 64 ∧
      1 ≤ ((buildPiece ['+', 'A', 'B'] ⟨false, false⟩).slots.getD i
          dSlot).shims.length ∧
      ((buildPiece ['+', 'A', 'B'] ⟨false, false⟩).slots.getD i
          dSlot).shims.length ≤ 26 ∧
      ((buildPiece ['+', 'A', 'B'] ⟨false, false⟩).slots.getD i
          dSlot).upward =
        (if ['+', 'A', 'B'].headD ' ' = '+' then 1 else -1) * (-1) ^ i) := by
  have hwf : WellFormedSN ['+', 'A', 'B'] := by decide
  have h : computePiece ['+', 'A', 'B'] ⟨false, false⟩ =
      some (buildPiece ['+', 'A', 'B'] ⟨false, false⟩) := by
    unfold computePiece
    rw [if_neg (by decide)]
  exact ⟨hwf, h, computePiece_slot_structure ['+', 'A', 'B'] ⟨false, false⟩
    _ hwf h⟩

/-! ## Tiling engine scale (part_001 lines 474-494, claim C9) -/

/-- `availWidth = pageSize.width - margin*2 - padding*(cols-1)` of
`piecesToPDF`. -/
noncomputable def availWidth (pageW margin padding cols : ℝ) : ℝ :=
  pageW - margin * 2 - padding * (cols - 1)

/-- `availHeight = pageSize.height - margin*2 - padding*(rows-1)` of
`piecesToPDF`. -/
noncomputable def availHeight (pageH margin padding rows : ℝ) : ℝ :=
  pageH - margin * 2 - padding * (rows - 1)

/-- The scale computed by `piecesToPDF` (part_001 lines 486-490):
`w = availWidth/cols`, `h = availHeight/rows`,
`scale = min(w/maxWidth, h/maxHeight)`.  The page geometry, requested
grid, and the theoretical maximum piece width/height are parameters (the
source fixes `margin = 15`, `padding = 10`). -/
noncomputable def piecesToPDFScale
    (pageW pageH margin padding cols rows maxW maxH : ℝ) : ℝ :=
  let w := availWidth pageW margin padding cols / cols
  let h := availHeight pageH margin padding rows / rows
  min (w / maxW) (h / maxH)

/-- C9: the computed scale is the largest scale `s` such that `cols`
pieces of width `s*maxWidth` fit across the available width and `rows`
pieces of height `s*maxHeight` fit down the available height
simultaneously — it satisfies both fit constraints, and any scale
satisfying both is at most the computed one (the binding constraint is the
tighter of the two). -/
theorem piecesToPDFScale_is_max (pageW pageH margin padding cols rows maxW maxH : ℝ)
    (hcols : 0 < cols) (hrows : 0 < rows) (hmaxW : 0 < maxW) (hmaxH : 0 < maxH) :
    (cols * (piecesToPDFScale pageW pageH margin padding cols rows maxW maxH * maxW) ≤
        availWidth pageW margin padding cols ∧
     rows * (piecesToPDFScale pageW pageH margin padding cols rows maxW maxH * maxH) ≤
        availHeight pageH margin padding rows) ∧
    ∀ s : ℝ,
      cols * (s * maxW) ≤ availWidth pageW margin padding cols →
      rows * (s * maxH) ≤ availHeight pageH margin padding rows →
      s ≤ piecesToPDFScale pageW pageH margin padding cols rows maxW maxH := by
  have hcw : 0 < cols * maxW := mul_pos hcols hmaxW
  have hrh : 0 < rows * maxH := mul_pos hrows hmaxH
  have key : ∀ s : ℝ,
      (cols * (s * maxW) ≤ availWidth pageW margin padding cols ↔
        s ≤ availWidth pageW margin padding cols / cols / maxW) := by
    intro s
    rw [div_div, le_div_iff hcw]
    constructor <;> intro h <;> nlinarith
  have key2 : ∀ s : ℝ,
      (rows * (s * maxH) ≤ availHeight pageH margin padding rows ↔
        s ≤ availHeight pageH margin padding rows / rows / maxH) := by
    intro s
    rw [div_div, le_div_iff hrh]
    constructor <;> intro h <;> nlinarith
  constructor
  · constructor
    · rw [key]
      exact min_le_left _ _
    · rw [key2]
      exact min_le_right _ _
  · intro s h1 h2
    rw [key] at h1
    rw [key2] at h2
    exact le_min h1 h2

/-- Witness for C9 on an A4-like page with a 2x3 grid. -/
theorem piecesToPDFScale_is_max_witness :
    (2 * (piecesToPDFScale 210 297 15 10 2 3 50 64 * 50) ≤
        availWidth 210 15 10 2 ∧
     3 * (piecesToPDFScale 210 297 15 10 2 3 50 64 * 64) ≤
        availHeight 297 15 10 3) ∧
    ∀ s : ℝ, 2 * (s * 50) ≤ availWidth 210 15 10 2 →
      3 * (s * 64) ≤ availHeight 297 15 10 3 →
      s ≤ piecesToPDFScale 210 297 15 10 2 3 50 64 :=
  piecesToPDFScale_is_max 210 297 15 10 2 3 50 64
    (by norm_num) (by norm_num) (by norm_num) (by norm_num)

/-! ## Legacy Geometry Builder (src/unnamed/part_000)

The older variant of `computePiece` (triangular shims only, `crop` flag
instead of an options object).  Its bounding-box loop starts at slot index
1 (`for (var iSlot = 1; ...)`, part_000 lines 230-242), unlike part_001
and shim.js whose loops start at 0. -/

namespace Legacy

/-- `shimRatio = 64` (part_000 line 8). -/
noncomputable def shimRatio : ℝ := 64

/-- `shimAngle = 2*asin(0.5/shimRatio)` (part_000 line 11). -/
noncomputable def shimAngle : ℝ := 2 * Real.arcsin (0.5 / shimRatio)

/-- `negativeSpace = 6` (part_000 line 14). -/
noncomputable def negativeSpace : ℝ := 6

/-- part_000 slots store `upward` as a boolean. -/
structure Slot where
  shims : List Shim
  angleStep : ℤ
  upward : Bool

/-- Default slot for `List.getD`. -/
def dSlot : Slot := ⟨[], 0, false⟩

/-- The piece object `{sn, slots, bbox}` of part_000. -/
structure Piece where
  sn : List Char
  slots : List Slot
  bbox : BBox

/-- Shim loop of part_000 (lines 138-146): `p0` the tip, `p1`/`p2` the
rotated base corners, `angleStep` decremented by `±1` between them. -/
noncomputable def mkShims (upward : Bool) : ℕ → ℤ → List Shim
  | 0, _ => []
  | n + 1, step =>
      let p0 : Point := ⟨0, if upward then 0 else shimRatio⟩
      let p1base : Point := ⟨0, if upward then shimRatio else 0⟩
      let p1 := rotate p0 p1base ((step : ℝ) * shimAngle)
      let step' := step - (if upward then 1 else -1)
      let p2 := rotate p0 p1base ((step' : ℝ) * shimAngle)
      [p0, p1, p2] :: mkShims upward n step'

/-- Slot loop of part_000 (lines 129-150). -/
noncomputable def mkSlots : List ℕ → ℤ → Bool → List Slot
  | [], _, _ => []
  | n :: rest, step, upward =>
      ⟨mkShims upward n step, step, upward⟩ ::
        mkSlots rest (step - (if upward then 1 else -1) * (n : ℤ)) (!upward)

/-- Cropped height of part_000 (lines 156-170): minimum over all shims of
`min(|p1.y - p0.y|, |p2.y - p0.y|)`, accumulated from `shimRatio`. -/
noncomputable def croppedHeight (slots : List Slot) : ℝ :=
  (slots.flatMap fun s => s.shims.map fun sh =>
      min |(sh.getD 1 pO).y - (sh.getD 0 pO).y|
        |(sh.getD 2 pO).y - (sh.getD 0 pO).y|).foldl min shimRatio

/-- part_000 lines 172-182: downward shims shift by `-(shimRatio-height)`. -/
noncomputable def alignDown (height : ℝ) (s : Slot) : Slot :=
  if s.upward then s
  else { s with shims := s.shims.map fun sh => sh.map fun p =>
    ⟨p.x, p.y - (shimRatio - height)⟩ }

/-- part_000 lines 184-196: corners 1 and 2 are projected onto the crop
line, the tip is kept. -/
noncomputable def cropShim (upward : Bool) (height : ℝ) (sh : Shim) : Shim :=
  [sh.getD 0 pO,
   project (sh.getD 0 pO) (sh.getD 1 pO) (if upward then height else 0),
   project (sh.getD 0 pO) (sh.getD 2 pO) (if upward then height else 0)]

noncomputable def cropSlot (height : ℝ) (s : Slot) : Slot :=
  { s with shims := s.shims.map (cropShim s.upward height) }

/-- Spacing shift of part_000 (lines 206-224): projected trailing edge of
the previous (already shifted) slot plus `negativeSpace`; the current
slot's own leading edge is not subtracted in this variant. -/
noncomputable def spacingShift (height : ℝ) (prev s : Slot) : ℝ :=
  let prevShim := prev.shims.getD (prev.shims.length - 1) []
  (project (prevShim.getD 0 pO) (prevShim.getD 2 pO)
    (if s.upward then 0 else height)).x + negativeSpace

noncomputable def slotShiftX (d : ℝ) (s : Slot) : Slot :=
  { s with shims := s.shims.map fun sh => sh.map fun p => ⟨p.x + d, p.y⟩ }

noncomputable def applySpacing (height : ℝ) : Slot → List Slot → List Slot
  | _, [] => []
  | prev, s :: rest =>
      let s' := slotShiftX (spacingShift height prev s) s
      s' :: applySpacing height s' rest

noncomputable def spaceSlots (height : ℝ) : List Slot → List Slot
  | [] => []
  | s :: rest => s :: applySpacing height s rest

/-- Bounding box of part_000 (lines 230-242): the accumulation loop starts
at slot index 1, skipping slot 0 entirely. -/
noncomputable def computeBBox (slots : List Slot) : BBox :=
  let pts := (slots.drop 1).flatMap fun s => s.shims.flatten
  { x := (pts.map Point.x).foldl min 0,
    y := (pts.map Point.y).foldl min 0,
    x2 := (pts.map Point.x).foldl max 0,
    y2 := (pts.map Point.y).foldl max 0 }

/-- Body of part_000's `computePiece` past the guard (lines 121-244). -/
noncomputable def buildPiece (sn : List Char) (crop : Bool) : Piece :=
  let counts := sn.tail.map fun ch => ch.toNat - 64
  let slots1 := mkSlots counts 0 (sn.headD ' ' == '+')
  let height := if crop then croppedHeight slots1 else shimRatio
  let slots2 := if crop then (slots1.map (alignDown height)).map (cropSlot height)
                else slots1
  let slots3 := spaceSlots height slots2
  { sn := sn, slots := slots3, bbox := computeBBox slots3 }

/-- Embedding of part_000's `computePiece(sn, crop)` (lines 118-245). -/
noncomputable def computePiece (sn : List Char) (crop : Bool) : Option Piece :=
  if sn.length < 2 ∨ (sn.headD ' ' ≠ '+' ∧ sn.headD ' ' ≠ '-') then none
  else some (buildPiece sn crop)

/-- Vertex `k` of shim `j` of slot `i` of a piece. -/
def vertexAt (p : Piece) (i j k : ℕ) : Point :=
  ((p.slots.getD i dSlot).shims.getD j []).getD k pO

end Legacy

/-- C5 counterexample: part_000's `computePiece` at the well-formed serial
number `"+A"` (uncropped) returns a piece whose slot-0 shim has the base
vertex `(0, 64)`, while its bounding box is `{0,0,0,0}` because the
accumulation loop skips slot 0 — that vertex lies outside the box. -/
theorem legacy_computePiece_bbox_misses_vertex :
    Legacy.computePiece ['+', 'A'] false =
      some (Legacy.buildPiece ['+', 'A'] false) ∧
    (Legacy.vertexAt (Legacy.buildPiece ['+', 'A'] false) 0 0 1).y = 64 ∧
    (Legacy.buildPiece ['+', 'A'] false).bbox.y2 = 0 ∧
    ¬ inBBox (Legacy.buildPiece ['+', 'A'] false).bbox
        (Legacy.vertexAt (Legacy.buildPiece ['+', 'A'] false) 0 0 1) := by
  have h2 : (Legacy.vertexAt (Legacy.buildPiece ['+', 'A'] false) 0 0 1).y = 64 := by
    simp [Legacy.vertexAt, Legacy.buildPiece, Legacy.mkSlots, Legacy.mkShims,
      Legacy.spaceSlots, Legacy.applySpacing, rotate, Legacy.shimRatio,
      Real.cos_zero, Real.sin_zero]
  have h3 : (Legacy.buildPiece ['+', 'A'] false).bbox.y2 = 0 := by
    simp [Legacy.buildPiece, Legacy.mkSlots, Legacy.mkShims,
      Legacy.spaceSlots, Legacy.applySpacing, Legacy.computeBBox]
  refine ⟨?_, h2, h3, ?_⟩
  · unfold Legacy.computePiece
    rw [if_neg (by decide)]
  · intro hin
    have hy := hin.2.2.2
    rw [h2, h3] at hy
    norm_num at hy
